import Mathlib

/-!
A shallow embedding of the query-server communication and result-processing
core of the vscode-codeql data-extensions editor, with theorems checking the
natural-language specification's claims against it.

The embedding covers: the modeled-method record merge of the `ExternalApi`
webview component, the `canHaveInterpretedResults` policy gate, the compile
request/response exchange, database registration, CSV export of decoded
result chunks, and the external-api usage aggregation (signature parsing,
grouping, sorting, percentage computation).
-/

/-- A user-authored model for an external API method (`ModeledMethod` in
`data-extensions-editor/interface`), discriminated by its `type` field
(`"none"`, `"source"`, `"sink"`, `"summary"`, ...). -/
structure ModeledMethod where
  type : String
  input : String
  output : String
  kind : String
deriving Repr, DecidableEq

/-- A JavaScript `Record<string, ModeledMethod>`, modelled as an association
list in key-insertion order (JS objects preserve insertion order). -/
abbrev ModeledMethodRecord := List (String × ModeledMethod)

/-- JS property lookup `record[k]`: the value at the first entry whose key is
`k`, or `undefined` (modelled by `none`). -/
def recLookup (m : ModeledMethodRecord) (k : String) : Option ModeledMethod :=
  (m.find? (fun e => e.1 = k)).map (fun e => e.2)

/-- JS object spread of two records, as in a spread of `a` followed by a
spread of `b`: the keys of `a` come first in their order, each carrying `b`'s
value when `b` also has the key (later spread wins), followed by the keys of
`b` not present in `a`, in `b`'s order. -/
def recSpread (a b : ModeledMethodRecord) : ModeledMethodRecord :=
  a.map (fun e => (e.1, (recLookup b e.1).getD e.2)) ++
    b.filter (fun e => (a.find? (fun e2 => e2.1 = e.1)).isNone)

/-- The `setExistingYamlData` handler of the `ExternalApi` webview component:
given the mapping loaded from the persisted YAML document (the result of
`loadDataExtensionYaml(msg.data)`) and the currently held local mapping
`oldModeledMethods`, the new state spreads the loaded entries first and the
local entries second. -/
def setExistingYamlDataMerge
    (existingModeledMethods oldModeledMethods : ModeledMethodRecord) :
    ModeledMethodRecord :=
  recSpread existingModeledMethods oldModeledMethods

theorem recLookup_map_preserve (a : ModeledMethodRecord)
    (f : String × ModeledMethod → ModeledMethod) (k : String) :
    recLookup (a.map (fun e => (e.1, f e))) k
      = (a.find? (fun e => e.1 = k)).map f := by
  induction a with
  | nil => rfl
  | cons e a ih =>
      by_cases h : e.1 = k
      · simp [recLookup, List.find?, h]
      · simpa [recLookup, List.find?, h] using ih

theorem recLookup_append (a b : ModeledMethodRecord) (k : String) :
    recLookup (a ++ b) k
      = match recLookup a k with
        | some v => some v
        | none => recLookup b k := by
  induction a with
  | nil => simp [recLookup]
  | cons e a ih =>
      by_cases h : e.1 = k
      · simp [recLookup, List.find?, h]
      · simpa [recLookup, List.find?, h] using ih

theorem recLookup_filter_other (a b : ModeledMethodRecord) (k : String)
    (ha : a.find? (fun e => e.1 = k) = none) :
    recLookup (b.filter (fun e => (a.find? (fun e2 => e2.1 = e.1)).isNone)) k
      = recLookup b k := by
  induction b with
  | nil => rfl
  | cons e b ih =>
      rw [List.filter_cons]
      by_cases h : e.1 = k
      · have hkeep : ((a.find? (fun e2 => e2.1 = e.1)).isNone : Bool) = true := by
          rw [h, ha]; rfl
        rw [hkeep]
        simp only [if_true]
        simp [recLookup, List.find?, h]
      · by_cases h2 : ((a.find? (fun e2 => e2.1 = e.1)).isNone : Bool) = true
        · rw [h2]
          simp only [if_true]
          simpa [recLookup, List.find?, h] using ih
        · rw [Bool.not_eq_true] at h2
          rw [h2]
          simp only [Bool.false_eq_true, if_false]
          simpa [recLookup, List.find?, h] using ih

theorem recLookup_recSpread (a b : ModeledMethodRecord) (k : String) :
    recLookup (recSpread a b) k
      = match recLookup b k with
        | some v => some v
        | none => recLookup a k := by
  unfold recSpread
  rw [recLookup_append]
  rw [recLookup_map_preserve a (fun e => (recLookup b e.1).getD e.2) k]
  cases hfa : a.find? (fun e => e.1 = k) with
  | none =>
      rw [recLookup_filter_other a b k hfa]
      cases hb : recLookup b k <;> simp [recLookup, hfa, hb]
  | some e =>
      have hek : e.1 = k := by
        have := List.find?_some hfa
        simpa using this
      cases hb : recLookup b k with
      | none =>
          have hfb : b.find? (fun e => e.1 = k) = none := by
            unfold recLookup at hb
            exact Option.map_eq_none'.mp hb
          simp [recLookup, hfa, hek, hb, hfb]
      | some v => simp [hek, hb]

/-- C1 counterexample: the claim says that for a signature present in both
the loaded persisted document and the local mapping, the loaded entry takes
precedence after `setExistingYamlData`. With signature `"s"` loaded as a
`"sink"` model while the local mapping holds a `"source"` model, the merged
mapping does NOT hold the loaded `"sink"` entry (it holds the local one):
the JS spread places the local entries last, so they win. -/
theorem setExistingYamlData_loaded_precedence_false :
    ¬ (recLookup
        (setExistingYamlDataMerge
          [("s", ⟨"sink", "", "", ""⟩)]
          [("s", ⟨"source", "", "", ""⟩)]) "s"
        = some ⟨"sink", "", "", ""⟩) := by
  decide

/-- C1 (amended): when only existing persisted YAML data is loaded, the merge
overlays the LOCAL entries on top of the loaded ones: for every signature the
merged value is the local entry when the signature is present locally, and
the loaded entry only when it is not. -/
theorem setExistingYamlData_local_precedence
    (existing old : ModeledMethodRecord) (k : String) :
    recLookup (setExistingYamlDataMerge existing old) k
      = match recLookup old k with
        | some v => some v
        | none => recLookup existing k :=
  recLookup_recSpread existing old k

/-- Query metadata: an optional result-interpretation kind
(e.g. "problem", "table", "graph"). -/
structure QueryMetadata where
  kind : Option String
deriving Repr, DecidableEq

/-- Modelled from the spec: the implementation of
`QueryEvaluationInfo.canHaveInterpretedResults` is not among the given source
files (only its unit test is). The spec's policy gate — metadata file
present, kind defined, "graph" only under the canary flag — is amended by
the pinned assertions of `run-queries.test.ts`, which additionally require
kind `"table"` to yield false even with the metadata file present. -/
def canHaveInterpretedResults (metadata : QueryMetadata)
    (databaseHasMetadataFile canaryFlag : Bool) : Bool :=
  databaseHasMetadataFile &&
    (match metadata.kind with
     | none => false
     | some k => (k != "table") && ((k != "graph") || canaryFlag))

/-- The condition the spec claims for `canHaveInterpretedResults`, following
the spec's words: the database carries a metadata file AND the kind is
defined AND (the kind is not "graph" OR the canary flag is set). -/
def canHaveInterpretedResultsClaimed (metadata : QueryMetadata)
    (databaseHasMetadataFile canaryFlag : Bool) : Bool :=
  databaseHasMetadataFile && metadata.kind.isSome &&
    ((metadata.kind != some "graph") || canaryFlag)

/-- C2 counterexample: for kind `"table"` with the metadata file present and
the canary flag unset, the spec's claimed condition holds but the gate (as
pinned by assertion "4" of the unit test) returns false, so the claimed
if-and-only-if characterization fails. -/
theorem canHaveInterpretedResults_claim_false :
    ¬ (canHaveInterpretedResults ⟨some "table"⟩ true false
        = canHaveInterpretedResultsClaimed ⟨some "table"⟩ true false) := by
  decide

/-- C2 (amended): `canHaveInterpretedResults` returns true if and only if the
database carries a metadata file AND the kind is defined AND the kind is not
"table" AND (the kind is not "graph" OR the canary flag is set). -/
theorem canHaveInterpretedResults_characterization
    (metadata : QueryMetadata) (databaseHasMetadataFile canaryFlag : Bool) :
    canHaveInterpretedResults metadata databaseHasMetadataFile canaryFlag = true
      ↔ databaseHasMetadataFile = true ∧
          ∃ k, metadata.kind = some k ∧ k ≠ "table" ∧
            (k ≠ "graph" ∨ canaryFlag = true) := by
  obtain ⟨ok⟩ := metadata
  cases ok with
  | none => simp [canHaveInterpretedResults]
  | some k =>
      simp only [canHaveInterpretedResults, Bool.and_eq_true, Bool.or_eq_true,
        bne_iff_ne, ne_eq, Option.some.injEq]
      constructor
      · rintro ⟨h1, h2, h3⟩
        exact ⟨h1, k, rfl, h2, by tauto⟩
      · rintro ⟨h1, k', hk', h2, h3⟩
        cases hk'
        exact ⟨h1, h2, by tauto⟩

/-- One database entry of a registration request. -/
structure DatabaseRegistrationEntry where
  dbDir : String
  workingSet : String
deriving Repr, DecidableEq

/-- The payload of a register/deregister request. -/
structure RegistrationParams where
  databases : List DatabaseRegistrationEntry
deriving Repr, DecidableEq

/-- Modelled from the spec: `LegacyQueryRunner.registerDatabase` is not among
the given source files (only its unit test is). The function returns the
outbound requests sent: none when the backend does not support database
registration, otherwise exactly one request holding the database's dataset
path with working set "default". -/
def registerDatabase (supportsDatabaseRegistration : Bool)
    (datasetPath : String) : List RegistrationParams :=
  if supportsDatabaseRegistration then
    [⟨[⟨datasetPath, "default"⟩]⟩]
  else
    []

/-- Modelled from the spec: `LegacyQueryRunner.deregisterDatabase`, with the
same capability gating and payload shape as registration. -/
def deregisterDatabase (supportsDatabaseRegistration : Bool)
    (datasetPath : String) : List RegistrationParams :=
  if supportsDatabaseRegistration then
    [⟨[⟨datasetPath, "default"⟩]⟩]
  else
    []

/-- C5: when the capability flag is false, register and deregister send zero
requests; when it is true, each sends exactly one request containing a single
entry with the database's dataset path and working set "default". -/
theorem registerDatabase_requests (datasetPath : String) :
    registerDatabase false datasetPath = [] ∧
    deregisterDatabase false datasetPath = [] ∧
    registerDatabase true datasetPath
      = [⟨[⟨datasetPath, "default"⟩]⟩] ∧
    deregisterDatabase true datasetPath
      = [⟨[⟨datasetPath, "default"⟩]⟩] :=
  ⟨rfl, rfl, rfl, rfl⟩

/-- The severity of a compiler message. -/
inductive Severity where
  | error
  | warning
deriving Repr, DecidableEq

/-- One message of a compilation result. -/
structure CompileMessage where
  message : String
  severity : Severity
deriving Repr, DecidableEq

/-- The backend's response to a compile request. -/
structure CheckQueryResult where
  messages : List CompileMessage
deriving Repr, DecidableEq

/-- The fixed compilation options of a compile request. -/
structure CompilationOptions where
  computeNoLocationUrls : Bool
  failOnWarnings : Bool
  fastCompilation : Bool
  includeDilInQlo : Bool
  localChecking : Bool
  noComputeGetUrl : Bool
  noComputeToString : Bool
  computeDefaultStrings : Bool
  emitDebugInfo : Bool
deriving Repr, DecidableEq

/-- The query program to check. -/
structure QlProgram where
  dbschemePath : String
  libraryPath : List String
  queryPath : String
deriving Repr, DecidableEq

/-- The compile target: a raw query body or a query-pack path
(exactly one variant is populated). -/
inductive CompileTarget where
  | query
  | pack (packPath : String)
deriving Repr, DecidableEq

/-- The payload of a compile request. -/
structure CompileParams where
  compilationOptions : CompilationOptions
  timeoutSecs : Nat
  queryToCheck : QlProgram
  resultPath : String
  target : CompileTarget
deriving Repr, DecidableEq

/-- One outbound exchange on the query-server channel: the request together
with the cancellation token and progress sink it was sent with. -/
structure SentCompileRequest (CancelToken ProgressSink : Type) where
  params : CompileParams
  token : CancelToken
  progress : ProgressSink

/-- A transport-level failure of the request/response channel. -/
inductive TransportError where
  | transportFailure (description : String)
deriving Repr, DecidableEq

/-- Modelled from the spec: `QueryInProgress.compile` is not among the given
source files (only its unit test is). It builds one compile request with the
fixed compilation options, the configured timeout, the query program, the
compiled-query result path and a plain query target, and sends it over the
channel with the cancellation token and progress sink. Per the pinned
expectation of the unit test — which feeds back one ERROR and one WARNING
message and expects only the ERROR in the returned list — only the messages
of severity ERROR are returned, in order; a transport failure propagates.
The function returns the list of requests sent, paired with the outcome. -/
def compile {CancelToken ProgressSink : Type} (timeoutSecs : Nat)
    (qlProgram : QlProgram) (compiledQueryPath : String)
    (token : CancelToken) (progressSink : ProgressSink)
    (response : Except TransportError CheckQueryResult) :
    List (SentCompileRequest CancelToken ProgressSink) ×
      Except TransportError (List CompileMessage) :=
  ([{ params :=
        { compilationOptions :=
            { computeNoLocationUrls := true
              failOnWarnings := false
              fastCompilation := false
              includeDilInQlo := true
              localChecking := false
              noComputeGetUrl := false
              noComputeToString := false
              computeDefaultStrings := true
              emitDebugInfo := true }
          timeoutSecs := timeoutSecs
          queryToCheck := qlProgram
          resultPath := compiledQueryPath
          target := CompileTarget.query }
      token := token
      progress := progressSink }],
   response.map (fun r =>
     r.messages.filter (fun m => m.severity == Severity.error)))

/-- C3 counterexample: when the backend responds with one ERROR and one
WARNING message, the call does not return the full ordered message list — the
WARNING is dropped (only the ERROR is returned), as pinned by the unit
test. -/
theorem compile_full_message_list_false :
    ¬ ((compile 5 ⟨"", [], ""⟩ "compiled-path" () ()
          (Except.ok ⟨[⟨"err", Severity.error⟩, ⟨"warn", Severity.warning⟩]⟩)).2
        = Except.ok [⟨"err", Severity.error⟩, ⟨"warn", Severity.warning⟩]) := by
  intro h
  have h2 := Except.ok.inj h
  exact absurd h2 (by decide)

/-- C3 (amended): for every compile call, exactly one compile request is sent
over the channel, carrying the cancellation token and progress sink; on a
successful response the call returns, in order, exactly the messages of
severity ERROR (warnings are filtered out) and does not throw; a transport
failure propagates to the caller. -/
theorem compile_request_and_result {CancelToken ProgressSink : Type}
    (timeoutSecs : Nat) (qlProgram : QlProgram) (compiledQueryPath : String)
    (token : CancelToken) (progressSink : ProgressSink)
    (response : Except TransportError CheckQueryResult) :
    (compile timeoutSecs qlProgram compiledQueryPath token progressSink
        response).1.length = 1 ∧
    (∀ r ∈ (compile timeoutSecs qlProgram compiledQueryPath token progressSink
        response).1, r.token = token ∧ r.progress = progressSink) ∧
    (∀ res, response = Except.ok res →
      (compile timeoutSecs qlProgram compiledQueryPath token progressSink
          response).2
        = Except.ok (res.messages.filter
            (fun m => m.severity == Severity.error))) ∧
    (∀ e, response = Except.error e →
      (compile timeoutSecs qlProgram compiledQueryPath token progressSink
          response).2 = Except.error e) := by
  refine ⟨rfl, ?_, ?_, ?_⟩
  · intro r hr
    simp only [compile, List.mem_singleton] at hr
    subst hr
    exact ⟨rfl, rfl⟩
  · rintro res rfl
    rfl
  · rintro e rfl
    rfl

/-- C3 witness: the amended theorem applied at the unit test's scenario: one
request is sent, and the response holding an ERROR and a WARNING yields
exactly the ERROR message. -/
theorem compile_request_and_result_witness :
    (compile 5 (⟨"", [], ""⟩ : QlProgram) "compiled-path" () ()
        (Except.ok ⟨[⟨"err", Severity.error⟩, ⟨"warn", Severity.warning⟩]⟩)).1.length
      = 1 ∧
    (compile 5 (⟨"", [], ""⟩ : QlProgram) "compiled-path" () ()
        (Except.ok ⟨[⟨"err", Severity.error⟩, ⟨"warn", Severity.warning⟩]⟩)).2
      = Except.ok [⟨"err", Severity.error⟩] := by
  have h := compile_request_and_result 5 (⟨"", [], ""⟩ : QlProgram)
    "compiled-path" () ()
    (Except.ok ⟨[⟨"err", Severity.error⟩, ⟨"warn", Severity.warning⟩]⟩)
  refine ⟨h.1, ?_⟩
  have h2 := h.2.2.1 ⟨[⟨"err", Severity.error⟩, ⟨"warn", Severity.warning⟩]⟩ rfl
  exact h2.trans (congrArg Except.ok (by decide))

/-- A decoded cell value of a BQRS tuple, as the JS values arising in the
decoded chunks: strings, booleans and integers. -/
inductive CellValue where
  | str (s : String)
  | boolean (b : Bool)
  | int (n : Int)
deriving Repr, DecidableEq

/-- JS string conversion of a decoded cell value. -/
def stringifyCell : CellValue → String
  | CellValue.str s => s
  | CellValue.boolean b => if b then "true" else "false"
  | CellValue.int n => toString n

/-- Double every double-quote character of a character list. -/
def escapeQuotesAux : List Char → List Char
  | [] => []
  | c :: cs =>
      if c = '"' then '"' :: '"' :: escapeQuotesAux cs
      else c :: escapeQuotesAux cs

/-- Double every double-quote character (RFC-4180-like escaping). -/
def escapeQuotes (s : String) : String :=
  String.mk (escapeQuotesAux s.data)

/-- Modelled from the spec: the CSV cell writer of
`QueryEvaluationInfo.exportCsvResults` (implementation not among the given
source files; pinned by its unit tests): a cell in a column of kind "String"
is wrapped in double quotes with embedded double quotes doubled; a cell of
any other column kind is written by plain JS stringification, with no quoting
or escaping. -/
def renderCell (columnKind : String) (v : CellValue) : String :=
  if columnKind = "String" then "\"" ++ escapeQuotes (stringifyCell v) ++ "\""
  else stringifyCell v

/-- One decoded page of a stored binary relation: ordered column kinds,
ordered tuples of cell values, and the next page offset when more pages
remain. -/
structure DecodedChunk where
  columns : List String
  tuples : List (List CellValue)
  nextPageOffset : Option Nat
deriving Repr, DecidableEq

/-- One CSV record: fields comma-joined, terminated by a newline. -/
def renderTuple (columnKinds : List String) (tuple : List CellValue) :
    String :=
  String.intercalate "," (List.zipWith renderCell columnKinds tuple) ++ "\n"

/-- All CSV records of one decoded chunk. -/
def renderChunk (c : DecodedChunk) : String :=
  String.join (c.tuples.map (renderTuple c.columns))

/-- The canonical select result-set name (`SELECT_QUERY_NAME`). -/
def selectQueryName : String := "#select"

/-- Modelled from the spec: the result-set choice of `exportCsvResults` — the
canonical select result set when present, else the first available; `none`
when there are no result sets. -/
def chooseResultSet (resultSetNames : List String) : Option String :=
  if resultSetNames.contains selectQueryName then some selectQueryName
  else resultSetNames.head?

/-- Modelled from the spec: `QueryEvaluationInfo.exportCsvResults`
(implementation not among the given source files; pinned by its unit tests).
Pagination — decoding pages until no next page offset is returned — is
modelled by taking the sequence of decoded pages of the chosen result set as
input. `none` models the boolean false return with no file written; `some
csv` models the boolean true return having written `csv`. -/
def exportCsvResults (resultSetNames : List String)
    (pages : List DecodedChunk) : Option String :=
  (chooseResultSet resultSetNames).map
    (fun _ => String.join (pages.map renderChunk))

/-- C4: a written cell is enclosed in double quotes with every embedded
double quote doubled exactly when its column kind is "String"; every
non-String cell is written by plain stringification with no quoting or
escaping, regardless of content; and for columns [NotString, String] with
tuples [[a, b], [c, d]] the exported CSV is exactly
"a,\"b\"\nc,\"d\"\n" — fields comma-joined, each row terminated by a
newline, no extra trailing blank line. -/
theorem exportCsvResults_escaping :
    (∀ columnKind v, columnKind ≠ "String" →
      renderCell columnKind v = stringifyCell v) ∧
    (∀ v, renderCell "String" v
      = "\"" ++ escapeQuotes (stringifyCell v) ++ "\"") ∧
    exportCsvResults [selectQueryName, "hucairz"]
        [⟨["NotString", "String"],
          [[CellValue.str "a", CellValue.str "b"],
           [CellValue.str "c", CellValue.str "d"]], none⟩]
      = some "a,\"b\"\nc,\"d\"\n" := by
  refine ⟨?_, ?_, ?_⟩
  · intro columnKind v h
    simp [renderCell, h]
  · intro v
    simp [renderCell]
  · decide

/-- C4 witness: the escaping rule evaluated at concrete cells — a non-String
cell containing a comma and a quote is written verbatim, while a String cell
is quoted with its embedded quote doubled, and the concrete export equals the
claimed CSV text. -/
theorem exportCsvResults_escaping_witness :
    renderCell "NotString" (CellValue.str "aaa \" bbb") = "aaa \" bbb" ∧
    renderCell "String" (CellValue.str "ccc \" ddd")
      = "\"" ++ escapeQuotes (stringifyCell (CellValue.str "ccc \" ddd")) ++ "\"" := by
  constructor
  · have h := exportCsvResults_escaping.1 "NotString"
      (CellValue.str "aaa \" bbb") (by decide)
    exact h.trans (by decide)
  · exact exportCsvResults_escaping.2.1 (CellValue.str "ccc \" ddd")

/-- C7: when the query result has zero result sets, the CSV export returns
the boolean false (modelled by `none`), raising no exception and writing no
usable content, whatever pages would have been decoded. -/
theorem exportCsvResults_no_result_sets (pages : List DecodedChunk) :
    exportCsvResults [] pages = none := by
  rfl

/-- JS `str.split("#")[0]`: the characters before the first '#'. -/
def splitHashFirst (l : List Char) : List Char :=
  l.takeWhile (fun c => c != '#')

/-- JS `str.split("#")[1]`: the characters between the first and the second
'#' (or the end), and `none` — JS `undefined` — when the string has no
'#'. -/
def splitHashSecond (l : List Char) : Option (List Char) :=
  match l.dropWhile (fun c => c != '#') with
  | [] => none
  | _ :: rest => some (rest.takeWhile (fun c => c != '#'))

/-- JS `s.substring(0, s.lastIndexOf("."))`: everything before the last dot;
empty when there is no dot (lastIndexOf is -1, and substring clamps it). -/
def beforeLastDot (l : List Char) : List Char :=
  ((l.reverse.dropWhile (fun c => c != '.')).drop 1).reverse

/-- JS `s.substring(s.lastIndexOf(".") + 1)`: everything after the last dot;
the whole string when there is no dot. -/
def afterLastDot (l : List Char) : List Char :=
  (l.reverse.takeWhile (fun c => c != '.')).reverse

/-- JS `s.substring(0, s.indexOf("("))`: everything before the first opening
parenthesis; empty when there is none (indexOf is -1, clamped to 0). -/
def beforeFirstParen (l : List Char) : List Char :=
  if ('(') ∈ l then l.takeWhile (fun c => c != '(') else []

/-- JS `s.substring(s.indexOf("("))`: from the first opening parenthesis on;
the whole string when there is none (substring of a negative index). -/
def fromFirstParen (l : List Char) : List Char :=
  if ('(') ∈ l then l.dropWhile (fun c => c != '(') else l

/-- The four name parts split out of an api signature. -/
structure SignatureParts where
  packageName : String
  typeName : String
  methodName : String
  methodParameters : String
deriving Repr, DecidableEq

/-- The signature-splitting steps of the `methods` aggregation in the
`ExternalApi` component: split at the first '#'; package and type at the
last dot of the first part; method name and parameters at the first '(' of
the second part. Returns `none` when the signature has no '#': in the
source, `split("#")[1]` is then `undefined` and the subsequent `substring`
access throws. -/
def parseApiSignature (apiSignature : String) : Option SignatureParts :=
  match splitHashSecond apiSignature.data with
  | none => none
  | some methodDeclaration =>
      let packageWithType := splitHashFirst apiSignature.data
      some
        { packageName := String.mk (beforeLastDot packageWithType)
          typeName := String.mk (afterLastDot packageWithType)
          methodName := String.mk (beforeFirstParen methodDeclaration)
          methodParameters := String.mk (fromFirstParen methodDeclaration) }

/-- An opaque call-site reference. -/
structure Call where
  label : String
deriving Repr, DecidableEq

/-- One decoded result tuple of the external-api query:
api signature, supported flag, call site. -/
structure UsageTuple where
  apiSignature : String
  supported : Bool
  usage : Call
deriving Repr, DecidableEq

/-- One aggregated per-API usage record. -/
structure ExternalApiUsage where
  externalApiInfo : String
  packageName : String
  typeName : String
  methodName : String
  methodParameters : String
  supported : Bool
  usages : List Call
deriving Repr, DecidableEq

/-- One iteration of the `forEach` body of the `methods` aggregation: the
signature is parsed first (a '#'-less signature throws, modelled by
`Option`); a record is created at the first encounter of the signature (with
the supported flag of that first tuple); the tuple's call is appended to the
record's usages. The JS `Map` is modelled as a list of records in
key-insertion order. -/
def aggregateStep (acc : List ExternalApiUsage) (t : UsageTuple) :
    Option (List ExternalApiUsage) :=
  (parseApiSignature t.apiSignature).map (fun parts =>
    if acc.any (fun r => r.externalApiInfo == t.apiSignature) then
      acc.map (fun r =>
        if r.externalApiInfo == t.apiSignature then
          { r with usages := r.usages ++ [t.usage] }
        else r)
    else
      acc ++ [{ externalApiInfo := t.apiSignature
                packageName := parts.packageName
                typeName := parts.typeName
                methodName := parts.methodName
                methodParameters := parts.methodParameters
                supported := t.supported
                usages := [t.usage] }])

/-- The grouping pass of the `methods` aggregation over all decoded
tuples. -/
def aggregateGroups (tuples : List UsageTuple) :
    Option (List ExternalApiUsage) :=
  tuples.foldlM aggregateStep []

/-- The order of the final sort, as the comparator
`(a, b) => b.usages.length - a.usages.length`: descending by number of
usages. -/
def usageDescLe (a b : ExternalApiUsage) : Bool :=
  b.usages.length ≤ a.usages.length

/-- The `methods` aggregation of the `ExternalApi` component: group the
decoded tuples by raw signature, then sort descending by usage count
(JS `Array.prototype.sort` is stable, modelled by a stable merge sort). -/
def methods (tuples : List UsageTuple) : Option (List ExternalApiUsage) :=
  (aggregateGroups tuples).map (fun l => l.mergeSort usageDescLe)

/-- The first entry of a record list whose key is `s`. -/
def lookupByInfo (l : List ExternalApiUsage) (s : String) :
    Option ExternalApiUsage :=
  l.find? (fun r => r.externalApiInfo == s)

/-- The calls of all tuples carrying signature `s`, in encounter order. -/
def usagesOf (ts : List UsageTuple) (s : String) : List Call :=
  (ts.filter (fun t => t.apiSignature == s)).map (fun t => t.usage)

/-- The record the spec expects for signature `s`: name parts from parsing
`s`, the supported flag of the first tuple carrying `s`, and the calls of
all tuples carrying `s` in encounter order. -/
def expectedUsage (ts : List UsageTuple) (s : String) :
    Option ExternalApiUsage :=
  (ts.find? (fun t => t.apiSignature == s)).bind (fun t0 =>
    (parseApiSignature s).map (fun parts =>
      { externalApiInfo := s
        packageName := parts.packageName
        typeName := parts.typeName
        methodName := parts.methodName
        methodParameters := parts.methodParameters
        supported := t0.supported
        usages := usagesOf ts s }))

/-- Signatures in order of first encounter. -/
def firstEncounterOrder (sigs : List String) : List String :=
  sigs.foldl (fun acc s => if s ∈ acc then acc else acc ++ [s]) []

/-- The keys of a record list, in order. -/
def infoKeys (l : List ExternalApiUsage) : List String :=
  l.map (fun r => r.externalApiInfo)

theorem takeWhile_all_true {α : Type} (p : α → Bool) (l : List α)
    (h : ∀ x ∈ l, p x = true) : l.takeWhile p = l := by
  induction l with
  | nil => rfl
  | cons x l ih =>
      have hx := h x (by simp)
      simp only [List.takeWhile_cons, hx, if_true]
      rw [ih (fun y hy => h y (by simp [hy]))]

theorem takeWhile_append_cons {α : Type} (p : α → Bool) (l1 : List α)
    (a : α) (l2 : List α) (h1 : ∀ x ∈ l1, p x = true) (h2 : p a = false) :
    (l1 ++ a :: l2).takeWhile p = l1 := by
  induction l1 with
  | nil => simp [List.takeWhile_cons, h2]
  | cons x l ih =>
      have hx := h1 x (by simp)
      simp only [List.cons_append, List.takeWhile_cons, hx, if_true]
      rw [ih (fun y hy => h1 y (by simp [hy]))]

theorem dropWhile_append_cons {α : Type} (p : α → Bool) (l1 : List α)
    (a : α) (l2 : List α) (h1 : ∀ x ∈ l1, p x = true) (h2 : p a = false) :
    (l1 ++ a :: l2).dropWhile p = a :: l2 := by
  induction l1 with
  | nil => simp [List.dropWhile_cons, h2]
  | cons x l ih =>
      have hx := h1 x (by simp)
      simp only [List.cons_append, List.dropWhile_cons, hx, if_true]
      exact ih (fun y hy => h1 y (by simp [hy]))

/-- C8: for every well-formed api signature of the shape
package.Type#method(params) — no '#' in the package, type, method or
parameter parts, a dot-free type, a '('-free method name, and parameters
starting with '(' — the parser yields exactly the package (everything before
the last dot preceding '#'), the type (the remainder up to '#'), the method
name (up to the first '(') and the parameters (from the first '(' onward,
inclusive). -/
theorem parseApiSignature_wellFormed (p t m ps : List Char)
    (hp : '#' ∉ p) (ht1 : '.' ∉ t) (ht2 : '#' ∉ t)
    (hm1 : '(' ∉ m) (hm2 : '#' ∉ m)
    (hps1 : ps.head? = some '(') (hps2 : '#' ∉ ps) :
    parseApiSignature (String.mk ((p ++ '.' :: t) ++ '#' :: (m ++ ps)))
      = some { packageName := String.mk p, typeName := String.mk t,
               methodName := String.mk m, methodParameters := String.mk ps } := by
  obtain ⟨ps', rfl⟩ : ∃ ps', ps = '(' :: ps' := by
    cases ps with
    | nil => cases hps1
    | cons c ps' =>
        have hc : c = '(' := by simpa using hps1
        exact ⟨ps', by rw [hc]⟩
  have hall1 : ∀ x ∈ p ++ '.' :: t, (x != '#') = true := by
    intro x hx
    rw [bne_iff_ne]
    rcases List.mem_append.mp hx with hxp | hxt
    · exact fun heq => hp (heq ▸ hxp)
    · rcases List.mem_cons.mp hxt with hxd | hxt'
      · rw [hxd]; decide
      · exact fun heq => ht2 (heq ▸ hxt')
  have hall2 : ∀ x ∈ m ++ '(' :: ps', (x != '#') = true := by
    intro x hx
    rw [bne_iff_ne]
    rcases List.mem_append.mp hx with hxm | hxps
    · exact fun heq => hm2 (heq ▸ hxm)
    · exact fun heq => hps2 (heq ▸ hxps)
  have hsecond : splitHashSecond ((p ++ '.' :: t) ++ '#' :: (m ++ '(' :: ps'))
      = some (m ++ '(' :: ps') := by
    unfold splitHashSecond
    rw [dropWhile_append_cons _ _ _ _ hall1 (by decide)]
    show some ((m ++ '(' :: ps').takeWhile (fun c => c != '#')) = _
    rw [takeWhile_all_true _ _ hall2]
  have hfirst : splitHashFirst ((p ++ '.' :: t) ++ '#' :: (m ++ '(' :: ps'))
      = p ++ '.' :: t := by
    unfold splitHashFirst
    exact takeWhile_append_cons _ _ _ _ hall1 (by decide)
  have htrev : ∀ x ∈ t.reverse, (x != '.') = true := by
    intro x hx
    rw [bne_iff_ne]
    exact fun heq => ht1 (heq ▸ List.mem_reverse.mp hx)
  have hrevsplit : (p ++ '.' :: t).reverse = t.reverse ++ '.' :: p.reverse := by
    rw [List.reverse_append, List.reverse_cons, List.append_assoc,
      List.singleton_append]
  have hbld : beforeLastDot (p ++ '.' :: t) = p := by
    unfold beforeLastDot
    rw [hrevsplit, dropWhile_append_cons _ _ _ _ htrev (by decide)]
    simp
  have hald : afterLastDot (p ++ '.' :: t) = t := by
    unfold afterLastDot
    rw [hrevsplit, takeWhile_append_cons _ _ _ _ htrev (by decide)]
    exact List.reverse_reverse t
  have hmem : ('(') ∈ m ++ '(' :: ps' := by simp
  have hmall : ∀ x ∈ m, (x != '(') = true := by
    intro x hx
    rw [bne_iff_ne]
    exact fun heq => hm1 (heq ▸ hx)
  have hbfp : beforeFirstParen (m ++ '(' :: ps') = m := by
    unfold beforeFirstParen
    rw [if_pos hmem]
    exact takeWhile_append_cons _ _ _ _ hmall (by decide)
  have hffp : fromFirstParen (m ++ '(' :: ps') = '(' :: ps' := by
    unfold fromFirstParen
    rw [if_pos hmem]
    exact dropWhile_append_cons _ _ _ _ hmall (by decide)
  unfold parseApiSignature
  have hdata : (String.mk ((p ++ '.' :: t) ++ '#' :: (m ++ '(' :: ps'))).data
      = (p ++ '.' :: t) ++ '#' :: (m ++ '(' :: ps') := rfl
  rw [hdata, hsecond, hfirst]
  dsimp only
  rw [hbld, hald, hbfp, hffp]

/-- C8 witness: the parser applied to the concrete signature
"com.foo.Bar#baz(int,int)" yields package "com.foo", type "Bar", method
"baz" and parameters "(int,int)". -/
theorem parseApiSignature_wellFormed_witness :
    parseApiSignature (String.mk
        ((['c', 'o', 'm', '.', 'f', 'o', 'o'] ++ '.' :: ['B', 'a', 'r'])
          ++ '#' :: (['b', 'a', 'z']
            ++ ['(', 'i', 'n', 't', ',', 'i', 'n', 't', ')'])))
      = some { packageName := String.mk ['c', 'o', 'm', '.', 'f', 'o', 'o'],
               typeName := String.mk ['B', 'a', 'r'],
               methodName := String.mk ['b', 'a', 'z'],
               methodParameters :=
                 String.mk ['(', 'i', 'n', 't', ',', 'i', 'n', 't', ')'] } :=
  parseApiSignature_wellFormed _ _ _ _ (by decide) (by decide) (by decide)
    (by decide) (by decide) (by decide) (by decide)

theorem splitHashSecond_cons_ne (c : Char) (l : List Char)
    (h : (c != '#') = true) :
    splitHashSecond (c :: l) = splitHashSecond l := by
  unfold splitHashSecond
  rw [List.dropWhile_cons, if_pos h]

theorem splitHashSecond_isSome (l : List Char) :
    (splitHashSecond l).isSome = true ↔ '#' ∈ l := by
  induction l with
  | nil => simp [splitHashSecond]
  | cons c l ih =>
      by_cases h : c = '#'
      · subst h
        simp [splitHashSecond, List.dropWhile_cons]
      · have hb : (c != '#') = true := by simpa using h
        rw [splitHashSecond_cons_ne c l hb]
        simp only [List.mem_cons]
        constructor
        · intro hs
          exact Or.inr (ih.mp hs)
        · rintro (hc | hl)
          · exact absurd hc.symm h
          · exact ih.mpr hl

theorem parseApiSignature_isSome (s : String) :
    (parseApiSignature s).isSome = true ↔ '#' ∈ s.data := by
  rw [← splitHashSecond_isSome s.data]
  unfold parseApiSignature
  cases h : splitHashSecond s.data with
  | none => simp
  | some md => simp

theorem aggregate_fold_isSome (ts : List UsageTuple) :
    ∀ acc : List ExternalApiUsage,
      (∀ t ∈ ts, '#' ∈ t.apiSignature.data) →
      (ts.foldlM aggregateStep acc).isSome = true := by
  induction ts with
  | nil =>
      intro acc _
      rfl
  | cons t ts ih =>
      intro acc h
      rw [List.foldlM_cons]
      have hp : (parseApiSignature t.apiSignature).isSome = true :=
        (parseApiSignature_isSome _).mpr (h t (by simp))
      obtain ⟨parts, hparts⟩ := Option.isSome_iff_exists.mp hp
      have hstep : ∃ acc', aggregateStep acc t = some acc' := by
        unfold aggregateStep
        rw [hparts]
        exact ⟨_, rfl⟩
      obtain ⟨acc', hacc'⟩ := hstep
      rw [hacc']
      exact ih acc' (fun x hx => h x (by simp [hx]))

/-- C10: the aggregation is total exactly under the precondition that every
tuple's api-signature contains '#': a concrete input whose signature has no
'#' makes the aggregation throw (modelled by `none`, as the source reads a
property of the `undefined` second half of the split), every input whose
signatures all contain '#' aggregates successfully, and a signature lacking
'(' and '.' does not throw — it yields an empty method name and an empty
package name. -/
theorem methods_hash_precondition :
    methods [⟨"noHashSignature", true, ⟨"c"⟩⟩] = none ∧
    (∀ ts : List UsageTuple, (∀ t ∈ ts, '#' ∈ t.apiSignature.data) →
      (methods ts).isSome = true) ∧
    methods [⟨"pkg#method", true, ⟨"c"⟩⟩]
      = some [⟨"pkg#method", "", "pkg", "", "method", true, [⟨"c"⟩]⟩] := by
  refine ⟨by decide, ?_, ?_⟩
  · intro ts h
    obtain ⟨g, hg⟩ :=
      Option.isSome_iff_exists.mp (aggregate_fold_isSome ts [] h)
    unfold methods aggregateGroups
    rw [hg]
    rfl
  · have hg : aggregateGroups [⟨"pkg#method", true, ⟨"c"⟩⟩]
        = some [⟨"pkg#method", "", "pkg", "", "method", true, [⟨"c"⟩]⟩] := by
      decide
    unfold methods
    rw [hg]
    simp [List.mergeSort]

/-- C10 witness: the totality part applied to a concrete one-tuple input
whose signature contains '#'. -/
theorem methods_hash_precondition_witness :
    (methods [⟨"a.B#c()", true, ⟨"u"⟩⟩]).isSome = true :=
  methods_hash_precondition.2.1 [⟨"a.B#c()", true, ⟨"u"⟩⟩] (by decide)

theorem lookupByInfo_cons (x : ExternalApiUsage) (xs : List ExternalApiUsage)
    (s : String) :
    lookupByInfo (x :: xs) s
      = match x.externalApiInfo == s with
        | true => some x
        | false => lookupByInfo xs s := by
  cases hx : (x.externalApiInfo == s) with
  | true =>
      exact @List.find?_cons_of_pos _ (fun r => r.externalApiInfo == s) x xs hx
  | false =>
      exact @List.find?_cons_of_neg _ (fun r => r.externalApiInfo == s) x xs
        (by simp [hx])

theorem lookupByInfo_map (l : List ExternalApiUsage)
    (f : ExternalApiUsage → ExternalApiUsage)
    (hf : ∀ r, (f r).externalApiInfo = r.externalApiInfo) (s : String) :
    lookupByInfo (l.map f) s = (lookupByInfo l s).map f := by
  induction l with
  | nil => rfl
  | cons x xs ih =>
      rw [List.map_cons, lookupByInfo_cons, lookupByInfo_cons, hf x]
      cases hx : (x.externalApiInfo == s) with
      | true => rfl
      | false => exact ih

theorem lookupByInfo_append (l1 l2 : List ExternalApiUsage) (s : String) :
    lookupByInfo (l1 ++ l2) s
      = match lookupByInfo l1 s with
        | some r => some r
        | none => lookupByInfo l2 s := by
  unfold lookupByInfo
  rw [List.find?_append]
  cases l1.find? (fun r => r.externalApiInfo == s) <;> rfl

theorem any_info_eq_lookup (l : List ExternalApiUsage) (s : String) :
    l.any (fun r => r.externalApiInfo == s) = (lookupByInfo l s).isSome := by
  induction l with
  | nil => rfl
  | cons x xs ih =>
      rw [List.any_cons, lookupByInfo_cons]
      cases hx : (x.externalApiInfo == s) with
      | true => rfl
      | false =>
          rw [Bool.false_or]
          exact ih

theorem usagesOf_cons_pos (t : UsageTuple) (ts : List UsageTuple)
    (s : String) (h : (t.apiSignature == s) = true) :
    usagesOf (t :: ts) s = t.usage :: usagesOf ts s := by
  unfold usagesOf
  rw [@List.filter_cons_of_pos _ (fun t' => t'.apiSignature == s) t ts h,
    List.map_cons]

theorem usagesOf_cons_neg (t : UsageTuple) (ts : List UsageTuple)
    (s : String) (h : (t.apiSignature == s) = false) :
    usagesOf (t :: ts) s = usagesOf ts s := by
  unfold usagesOf
  rw [List.filter_cons_of_neg (by simp [h])]

theorem expectedUsage_cons_ne (t : UsageTuple) (ts : List UsageTuple)
    (s : String) (h : (t.apiSignature == s) = false) :
    expectedUsage (t :: ts) s = expectedUsage ts s := by
  unfold expectedUsage
  rw [List.find?_cons_of_neg _ (by rw [h]; exact Bool.false_ne_true),
    usagesOf_cons_neg t ts s h]

theorem infoKeys_map_preserve (l : List ExternalApiUsage)
    (f : ExternalApiUsage → ExternalApiUsage)
    (hf : ∀ r, (f r).externalApiInfo = r.externalApiInfo) :
    infoKeys (l.map f) = infoKeys l := by
  unfold infoKeys
  rw [List.map_map]
  exact List.map_congr_left (fun r _ => hf r)

theorem lookupByInfo_of_mem (l : List ExternalApiUsage)
    (r : ExternalApiUsage) (hr : r ∈ l) (hnd : (infoKeys l).Nodup) :
    lookupByInfo l r.externalApiInfo = some r := by
  induction l with
  | nil => cases hr
  | cons x xs ih =>
      have hnd' : x.externalApiInfo ∉ infoKeys xs ∧ (infoKeys xs).Nodup :=
        List.nodup_cons.mp (by simpa [infoKeys] using hnd)
      rw [List.mem_cons] at hr
      rw [lookupByInfo_cons]
      cases hx : (x.externalApiInfo == r.externalApiInfo) with
      | true =>
          rcases hr with rfl | hr'
          · rfl
          · exfalso
            have hkey : r.externalApiInfo ∈ infoKeys xs :=
              List.mem_map.mpr ⟨r, hr', rfl⟩
            have hx' : x.externalApiInfo = r.externalApiInfo := beq_iff_eq.mp hx
            exact hnd'.1 (hx' ▸ hkey)
      | false =>
          rcases hr with rfl | hr'
          · exact absurd (beq_self_eq_true r.externalApiInfo)
              (by rw [hx]; exact Bool.false_ne_true)
          · exact ih hr' hnd'.2

theorem usageDescLe_trans : ∀ a b c : ExternalApiUsage,
    usageDescLe a b = true → usageDescLe b c = true →
    usageDescLe a c = true := by
  intro a b c h1 h2
  simp only [usageDescLe, decide_eq_true_eq] at *
  exact le_trans h2 h1

theorem usageDescLe_total : ∀ a b : ExternalApiUsage,
    (usageDescLe a b || usageDescLe b a) = true := by
  intro a b
  simp only [usageDescLe, Bool.or_eq_true, decide_eq_true_eq]
  exact Nat.le_total _ _

theorem lookupByInfo_some_info (l : List ExternalApiUsage) (s : String)
    (r : ExternalApiUsage) (h : lookupByInfo l s = some r) :
    (r.externalApiInfo == s) = true := by
  induction l with
  | nil => cases h
  | cons x xs ih =>
      rw [lookupByInfo_cons] at h
      cases hx : (x.externalApiInfo == s) with
      | true =>
          rw [hx] at h
          cases h
          exact hx
      | false =>
          rw [hx] at h
          exact ih h

theorem aggregate_fold_lookup (ts : List UsageTuple) :
    ∀ (acc g : List ExternalApiUsage),
      ts.foldlM aggregateStep acc = some g → ∀ s,
      lookupByInfo g s
        = match lookupByInfo acc s with
          | some r => some { r with usages := r.usages ++ usagesOf ts s }
          | none => expectedUsage ts s := by
  induction ts with
  | nil =>
      intro acc g hg s
      rw [List.foldlM_nil] at hg
      cases hg
      cases h : lookupByInfo acc s with
      | none => simp [expectedUsage]
      | some r => simp [usagesOf]
  | cons t ts ih =>
      intro acc g hg s
      rw [List.foldlM_cons] at hg
      cases hstep : aggregateStep acc t with
      | none =>
          rw [hstep] at hg
          cases hg
      | some acc' =>
      rw [hstep] at hg
      have hrest : ts.foldlM aggregateStep acc' = some g := hg
      cases hparse : parseApiSignature t.apiSignature with
      | none =>
          unfold aggregateStep at hstep
          rw [hparse] at hstep
          cases hstep
      | some parts =>
      unfold aggregateStep at hstep
      rw [hparse] at hstep
      have hacc' : acc'
          = if acc.any (fun r => r.externalApiInfo == t.apiSignature) then
              acc.map (fun r =>
                if r.externalApiInfo == t.apiSignature then
                  { r with usages := r.usages ++ [t.usage] }
                else r)
            else
              acc ++ [{ externalApiInfo := t.apiSignature
                        packageName := parts.packageName
                        typeName := parts.typeName
                        methodName := parts.methodName
                        methodParameters := parts.methodParameters
                        supported := t.supported
                        usages := [t.usage] }] :=
        (Option.some.inj hstep).symm
      have hIH := ih acc' g hrest s
      by_cases hb : acc.any (fun r => r.externalApiInfo == t.apiSignature)
          = true
      · rw [if_pos hb] at hacc'
        have hpres : ∀ r : ExternalApiUsage,
            ((if r.externalApiInfo == t.apiSignature then
              { r with usages := r.usages ++ [t.usage] }
             else r) : ExternalApiUsage).externalApiInfo
              = r.externalApiInfo := by
          intro r
          by_cases h : (r.externalApiInfo == t.apiSignature) = true
          · rw [if_pos h]
          · rw [if_neg h]
        have hlook : lookupByInfo acc' s = (lookupByInfo acc s).map
            (fun r => if r.externalApiInfo == t.apiSignature then
              { r with usages := r.usages ++ [t.usage] } else r) := by
          rw [hacc']
          exact lookupByInfo_map acc _ hpres s
        by_cases heq : t.apiSignature = s
        · subst heq
          have hsome : (lookupByInfo acc t.apiSignature).isSome = true := by
            rw [← any_info_eq_lookup]
            exact hb
          obtain ⟨r0, hr0⟩ := Option.isSome_iff_exists.mp hsome
          have hr0info : (r0.externalApiInfo == t.apiSignature) = true :=
            lookupByInfo_some_info acc t.apiSignature r0 hr0
          have hr0eq : r0.externalApiInfo = t.apiSignature :=
            beq_iff_eq.mp hr0info
          rw [hIH, hlook, hr0,
            usagesOf_cons_pos t ts t.apiSignature (by simp)]
          simp [hr0info, hr0eq, List.append_assoc]
        · have hbeq : (t.apiSignature == s) = false := by
            simpa using heq
          rw [hIH, hlook, usagesOf_cons_neg t ts s hbeq,
            expectedUsage_cons_ne t ts s hbeq]
          cases hr : lookupByInfo acc s with
          | none => simp
          | some r =>
              have hrinfo : (r.externalApiInfo == s) = true :=
                lookupByInfo_some_info acc s r hr
              have hrne : (r.externalApiInfo == t.apiSignature) = false := by
                have h1 : r.externalApiInfo = s := beq_iff_eq.mp hrinfo
                rw [h1]
                exact beq_eq_false_iff_ne.mpr (fun hh => heq hh.symm)
              have hrneq : r.externalApiInfo ≠ t.apiSignature := by
                simpa using hrne
              simp [hrne, hrneq]
      · rw [if_neg hb] at hacc'
        have hnone : lookupByInfo acc t.apiSignature = none := by
          have h1 : acc.any (fun r => r.externalApiInfo == t.apiSignature)
              = false := by
            cases hany : acc.any (fun r => r.externalApiInfo == t.apiSignature) with
            | false => rfl
            | true => exact absurd hany hb
          have h2 : (lookupByInfo acc t.apiSignature).isSome = false := by
            rw [← any_info_eq_lookup]
            exact h1
          cases hres : lookupByInfo acc t.apiSignature with
          | none => rfl
          | some r =>
              rw [hres] at h2
              cases h2
        have hlook : lookupByInfo acc' s
            = match lookupByInfo acc s with
              | some r => some r
              | none => lookupByInfo
                  [{ externalApiInfo := t.apiSignature
                     packageName := parts.packageName
                     typeName := parts.typeName
                     methodName := parts.methodName
                     methodParameters := parts.methodParameters
                     supported := t.supported
                     usages := [t.usage] }] s := by
          rw [hacc']
          exact lookupByInfo_append acc _ s
        by_cases heq : t.apiSignature = s
        · subst heq
          have hsingle : lookupByInfo
              [{ externalApiInfo := t.apiSignature
                 packageName := parts.packageName
                 typeName := parts.typeName
                 methodName := parts.methodName
                 methodParameters := parts.methodParameters
                 supported := t.supported
                 usages := [t.usage] }] t.apiSignature
              = some { externalApiInfo := t.apiSignature
                       packageName := parts.packageName
                       typeName := parts.typeName
                       methodName := parts.methodName
                       methodParameters := parts.methodParameters
                       supported := t.supported
                       usages := [t.usage] } := by
            rw [lookupByInfo_cons]
            simp
          rw [hIH, hlook, hnone, hsingle]
          unfold expectedUsage
          rw [List.find?_cons_of_pos _ (by simp), hparse,
            usagesOf_cons_pos t ts t.apiSignature (by simp)]
          simp
        · have hbeq : (t.apiSignature == s) = false := by
            simpa using heq
          have hsingle : lookupByInfo
              [{ externalApiInfo := t.apiSignature
                 packageName := parts.packageName
                 typeName := parts.typeName
                 methodName := parts.methodName
                 methodParameters := parts.methodParameters
                 supported := t.supported
                 usages := [t.usage] }] s = none := by
            rw [lookupByInfo_cons]
            simp [hbeq, lookupByInfo]
          rw [hIH, hlook, usagesOf_cons_neg t ts s hbeq,
            expectedUsage_cons_ne t ts s hbeq]
          cases hr : lookupByInfo acc s with
          | none => simp [hsingle]
          | some r => simp

theorem updateUsages_preserves_info (sig : String) (u : Call) :
    ∀ r : ExternalApiUsage,
      ((if r.externalApiInfo == sig then
        { r with usages := r.usages ++ [u] } else r) :
        ExternalApiUsage).externalApiInfo = r.externalApiInfo := by
  intro r
  by_cases hx : (r.externalApiInfo == sig) = true
  · rw [if_pos hx]
  · rw [if_neg hx]

theorem aggregate_fold_nodup (ts : List UsageTuple) :
    ∀ acc g, ts.foldlM aggregateStep acc = some g →
      (infoKeys acc).Nodup → (infoKeys g).Nodup := by
  induction ts with
  | nil =>
      intro acc g hg h
      rw [List.foldlM_nil] at hg
      cases hg
      exact h
  | cons t ts ih =>
      intro acc g hg h
      rw [List.foldlM_cons] at hg
      cases hstep : aggregateStep acc t with
      | none =>
          rw [hstep] at hg
          cases hg
      | some acc' =>
      rw [hstep] at hg
      have hrest : ts.foldlM aggregateStep acc' = some g := hg
      refine ih acc' g hrest ?_
      cases hparse : parseApiSignature t.apiSignature with
      | none =>
          unfold aggregateStep at hstep
          rw [hparse] at hstep
          cases hstep
      | some parts =>
      unfold aggregateStep at hstep
      rw [hparse] at hstep
      have hacc' : acc'
          = if acc.any (fun r => r.externalApiInfo == t.apiSignature) then
              acc.map (fun r =>
                if r.externalApiInfo == t.apiSignature then
                  { r with usages := r.usages ++ [t.usage] }
                else r)
            else
              acc ++ [{ externalApiInfo := t.apiSignature
                        packageName := parts.packageName
                        typeName := parts.typeName
                        methodName := parts.methodName
                        methodParameters := parts.methodParameters
                        supported := t.supported
                        usages := [t.usage] }] :=
        (Option.some.inj hstep).symm
      by_cases hb : acc.any (fun r => r.externalApiInfo == t.apiSignature)
          = true
      · rw [if_pos hb] at hacc'
        rw [hacc',
          infoKeys_map_preserve acc _
            (updateUsages_preserves_info t.apiSignature t.usage)]
        exact h
      · rw [if_neg hb] at hacc'
        have hnot : t.apiSignature ∉ infoKeys acc := by
          intro hmem
          obtain ⟨r, hr, hrs⟩ := List.mem_map.mp hmem
          exact hb (List.any_eq_true.mpr ⟨r, hr, beq_iff_eq.mpr hrs⟩)
        rw [hacc']
        have hkeys : infoKeys (acc ++
              [{ externalApiInfo := t.apiSignature
                 packageName := parts.packageName
                 typeName := parts.typeName
                 methodName := parts.methodName
                 methodParameters := parts.methodParameters
                 supported := t.supported
                 usages := [t.usage] }])
            = infoKeys acc ++ [t.apiSignature] := by
          simp [infoKeys]
        rw [hkeys, List.nodup_append]
        refine ⟨h, List.nodup_singleton _, ?_⟩
        intro a ha hb2
        rw [List.mem_singleton] at hb2
        exact hnot (hb2 ▸ ha)

theorem aggregate_fold_keys (ts : List UsageTuple) :
    ∀ acc g, ts.foldlM aggregateStep acc = some g →
      infoKeys g = (ts.map (fun t => t.apiSignature)).foldl
        (fun ks s => if s ∈ ks then ks else ks ++ [s]) (infoKeys acc) := by
  induction ts with
  | nil =>
      intro acc g hg
      rw [List.foldlM_nil] at hg
      cases hg
      rfl
  | cons t ts ih =>
      intro acc g hg
      rw [List.foldlM_cons] at hg
      cases hstep : aggregateStep acc t with
      | none =>
          rw [hstep] at hg
          cases hg
      | some acc' =>
      rw [hstep] at hg
      have hrest : ts.foldlM aggregateStep acc' = some g := hg
      cases hparse : parseApiSignature t.apiSignature with
      | none =>
          unfold aggregateStep at hstep
          rw [hparse] at hstep
          cases hstep
      | some parts =>
      unfold aggregateStep at hstep
      rw [hparse] at hstep
      have hacc' : acc'
          = if acc.any (fun r => r.externalApiInfo == t.apiSignature) then
              acc.map (fun r =>
                if r.externalApiInfo == t.apiSignature then
                  { r with usages := r.usages ++ [t.usage] }
                else r)
            else
              acc ++ [{ externalApiInfo := t.apiSignature
                        packageName := parts.packageName
                        typeName := parts.typeName
                        methodName := parts.methodName
                        methodParameters := parts.methodParameters
                        supported := t.supported
                        usages := [t.usage] }] :=
        (Option.some.inj hstep).symm
      rw [List.map_cons, List.foldl_cons, ih acc' g hrest]
      congr 1
      by_cases hb : acc.any (fun r => r.externalApiInfo == t.apiSignature)
          = true
      · rw [if_pos hb] at hacc'
        have hmem : t.apiSignature ∈ infoKeys acc := by
          obtain ⟨r, hr, hrs⟩ := List.any_eq_true.mp hb
          exact List.mem_map.mpr ⟨r, hr, beq_iff_eq.mp hrs⟩
        rw [if_pos hmem, hacc']
        exact infoKeys_map_preserve acc _
          (updateUsages_preserves_info t.apiSignature t.usage)
      · rw [if_neg hb] at hacc'
        have hnot : t.apiSignature ∉ infoKeys acc := by
          intro hmem
          obtain ⟨r, hr, hrs⟩ := List.mem_map.mp hmem
          exact hb (List.any_eq_true.mpr ⟨r, hr, beq_iff_eq.mpr hrs⟩)
        rw [if_neg hnot, hacc']
        simp [infoKeys]

/-- C6: the usage aggregation groups the input tuples by raw api signature —
every output record carries the supported flag of the first-encountered
tuple with its signature (later tuples never overwrite it) and the calls of
all its tuples in encounter order — and the final list is a stable sort of
the grouped records, descending by usage count: it is sorted descending, any
two grouped records with equal usage counts keep their grouping order, and
the grouping order is the first-encounter order of the signatures. -/
theorem methods_aggregation (ts : List UsageTuple)
    (g out : List ExternalApiUsage)
    (hg : aggregateGroups ts = some g) (hout : methods ts = some out) :
    (∀ r ∈ out, expectedUsage ts r.externalApiInfo = some r) ∧
    out.Pairwise (fun a b => b.usages.length ≤ a.usages.length) ∧
    (∀ a b, [a, b].Sublist g → a.usages.length = b.usages.length →
      [a, b].Sublist out) ∧
    infoKeys g = firstEncounterOrder (ts.map (fun t => t.apiSignature)) := by
  have hout' : out = g.mergeSort usageDescLe := by
    unfold methods at hout
    rw [hg] at hout
    exact (Option.some.inj hout).symm
  subst hout'
  have hfold : ts.foldlM aggregateStep [] = some g := hg
  have hnd : (infoKeys g).Nodup :=
    aggregate_fold_nodup ts [] g hfold List.nodup_nil
  refine ⟨?_, ?_, ?_, ?_⟩
  · intro r hr
    have hrg : r ∈ g :=
      (List.mergeSort_perm g usageDescLe).mem_iff.mp hr
    have hlk := lookupByInfo_of_mem g r hrg hnd
    have hmain : lookupByInfo g r.externalApiInfo
        = expectedUsage ts r.externalApiInfo :=
      aggregate_fold_lookup ts [] g hfold r.externalApiInfo
    rw [hlk] at hmain
    exact hmain.symm
  · refine List.Pairwise.imp ?_
      (List.sorted_mergeSort usageDescLe_trans usageDescLe_total g)
    intro a b hab
    simpa [usageDescLe] using hab
  · intro a b hsub hlen
    refine List.sublist_mergeSort usageDescLe_trans usageDescLe_total ?_ hsub
    refine List.pairwise_cons.mpr ⟨?_, List.pairwise_singleton _ _⟩
    intro b' hb'
    rw [List.mem_singleton] at hb'
    subst hb'
    simp [usageDescLe, hlen]
  · exact aggregate_fold_keys ts [] g hfold

/-- C6 witness: the aggregation and sort applied to three concrete tuples —
two signatures, the second with two usages — and the record of the
two-usage signature evaluated: its supported flag is the first tuple's, its
usages are in encounter order. -/
theorem methods_aggregation_witness :
    expectedUsage
        [⟨"a.B#c()", true, ⟨"u1"⟩⟩, ⟨"d.E#f()", false, ⟨"u2"⟩⟩,
         ⟨"d.E#f()", true, ⟨"u3"⟩⟩] "d.E#f()"
      = some ⟨"d.E#f()", "d", "E", "f", "()", false, [⟨"u2"⟩, ⟨"u3"⟩]⟩ := by
  have hg0 : aggregateGroups
      [⟨"a.B#c()", true, ⟨"u1"⟩⟩, ⟨"d.E#f()", false, ⟨"u2"⟩⟩,
       ⟨"d.E#f()", true, ⟨"u3"⟩⟩]
      = some [⟨"a.B#c()", "a", "B", "c", "()", true, [⟨"u1"⟩]⟩,
              ⟨"d.E#f()", "d", "E", "f", "()", false, [⟨"u2"⟩, ⟨"u3"⟩]⟩] := by
    decide
  have hout0 : methods
      [⟨"a.B#c()", true, ⟨"u1"⟩⟩, ⟨"d.E#f()", false, ⟨"u2"⟩⟩,
       ⟨"d.E#f()", true, ⟨"u3"⟩⟩]
      = some [⟨"d.E#f()", "d", "E", "f", "()", false, [⟨"u2"⟩, ⟨"u3"⟩]⟩,
              ⟨"a.B#c()", "a", "B", "c", "()", true, [⟨"u1"⟩]⟩] := by
    unfold methods
    rw [hg0]
    simp [List.mergeSort, usageDescLe]
  have h := methods_aggregation _ _ _ hg0 hout0
  exact h.1 _ (List.mem_cons_self _ _)

/-- A JavaScript number as arising in the percentage computations: NaN,
positive infinity, or a rational value. -/
inductive JsNumber where
  | nan
  | posInf
  | num (q : ℚ)
deriving DecidableEq

/-- JS division of two nonnegative integers (array lengths): 0/0 is NaN,
n/0 with positive n is Infinity, otherwise the exact quotient. -/
def jsDivNat (a b : Nat) : JsNumber :=
  if b = 0 then
    if a = 0 then JsNumber.nan else JsNumber.posInf
  else JsNumber.num ((a : ℚ) / (b : ℚ))

/-- JS multiplication by the literal 100 (NaN and infinity absorb). -/
def jsMul100 : JsNumber → JsNumber
  | JsNumber.nan => JsNumber.nan
  | JsNumber.posInf => JsNumber.posInf
  | JsNumber.num q => JsNumber.num (q * 100)

/-- `supportedPercentage` of the `ExternalApi` component: the length of the
filter of supported records over the length of the whole list, times 100. -/
def supportedPercentage (ms : List ExternalApiUsage) : JsNumber :=
  jsMul100 (jsDivNat (ms.filter (fun m => m.supported)).length ms.length)

/-- `unsupportedPercentage` of the `ExternalApi` component. -/
def unsupportedPercentage (ms : List ExternalApiUsage) : JsNumber :=
  jsMul100 (jsDivNat (ms.filter (fun m => !m.supported)).length ms.length)

/-- C9: with zero input tuples the aggregation yields an empty usage list,
and the downstream percentage computations on the empty list evaluate
without crashing: JS computes 0/0 as NaN and NaN times 100 as NaN, so the
result is the NaN-safe total value NaN (no exception exists or is needed in
the model — the functions are total). -/
theorem percentages_empty :
    methods [] = some [] ∧
    supportedPercentage [] = JsNumber.nan ∧
    unsupportedPercentage [] = JsNumber.nan := by
  refine ⟨?_, rfl, rfl⟩
  unfold methods aggregateGroups
  rw [List.foldlM_nil]
  simp [List.mergeSort]
